import Mathlib

/-!
Verification of the discourse analytics aggregation engine of the education
dashboard (src/dashboard.py): filtering, grouping, ranking, top-k selection
and article lookup, embedded as pure functions over lists of records.
-/

set_option maxRecDepth 4000

/-- Record: one labeled article row of the input table, with columns
source, topic_name, election_period, date, article_id, text_clean.
Dates and article ids are encoded as naturals. -/
structure Record where
  source : String
  topic_name : String
  election_period : String
  date : Nat
  article_id : Nat
  text_clean : String
deriving DecidableEq, Repr

/-- Sidebar filter (dashboard.py lines 79-83):
df[df.source.isin(sources) AND df.topic_name.isin(topics) AND df.election_period.isin(periods)]. -/
def filterRecords (df : List Record) (sources topics periods : List String) : List Record :=
  df.filter (fun r =>
    sources.contains r.source && topics.contains r.topic_name
      && periods.contains r.election_period)

/-- Distinct values in first-appearance order, as pandas unique() and the
group order of value_counts. The accumulator holds the values already seen. -/
def uniqueFirstAux {α : Type} [DecidableEq α] (seen : List α) : List α → List α
  | [] => []
  | x :: xs => if x ∈ seen then uniqueFirstAux seen xs else x :: uniqueFirstAux (x :: seen) xs

/-- Distinct values of a list in first-appearance order. -/
def uniqueFirst {α : Type} [DecidableEq α] (l : List α) : List α := uniqueFirstAux [] l

/-- Distinct topics of the subset: the index of the rank pivot table, since the
groupby on (election_period, topic_name) has a row for every topic of the subset. -/
def topicsOf (df : List Record) : List String :=
  uniqueFirst (df.map (fun r => r.topic_name))

/-- Election periods of the subset records (with repetitions; only membership is used). -/
def periodsOf (df : List Record) : List String :=
  df.map (fun r => r.election_period)

/-- Count of subset records with the given election period and topic: one cell of
the pivot table built from groupby(["election_period","topic_name"]).size();
a (period, topic) pair absent from the subset gets the fillna(0) value 0. -/
def countTopicPeriod (df : List Record) (p t : String) : Nat :=
  df.countP (fun r => r.election_period == p && r.topic_name == t)

/-- Twice the value of pandas Series.rank(ascending=False) (default method,
the mean of the positions a tied block occupies in the descending order):
2 * rank = 2 * #(strictly greater) + #(equal) + 1 over the index list U with
count function f. Doubling keeps the computation in Nat. -/
def rank2In (U : List String) (f : String → Nat) (t : String) : Nat :=
  2 * U.countP (fun s => decide (f t < f s)) + U.countP (fun s => f s == f t) + 1

/-- Twice the rank of topic t under period p, over the pivot index topicsOf df. -/
def rank2 (df : List Record) (p t : String) : Nat :=
  rank2In (topicsOf df) (countTopicPeriod df p) t

/-- Rank of topic t under period p as pandas reports it (ties give half-integers). -/
def rankIn (df : List Record) (p t : String) : ℚ :=
  (rank2 df p t : ℚ) / 2

/-- Twice the rank_change of a topic, an integer: 2 * (rank_pre - rank_post). -/
def rankChange2 (df : List Record) (t : String) : ℤ :=
  (rank2 df "pre_election" t : ℤ) - (rank2 df "post_election" t : ℤ)

/-- rank_change = rank_pre - rank_post (dashboard.py line 126). -/
def rankChange (df : List Record) (t : String) : ℚ :=
  (rankChange2 df t : ℚ) / 2

/-- First element maximising f, embedding
sort_values(by rank_change, ascending=False).head(1). Comparing twice the
rank_change values orders topics exactly as comparing the rank_change values. -/
def argmaxZ (f : String → ℤ) : List String → String
  | [] => ""
  | [t] => t
  | t :: u :: ts =>
    let m := argmaxZ f (u :: ts)
    if f t < f m then m else t

/-- Topic reported as the biggest riser: a topic of the pivot index whose
rank_change is maximal. -/
def topMover (df : List Record) : String :=
  argmaxZ (rankChange2 df) (topicsOf df)

/-- Result of the Rank-Shift Calculator: the degraded signal, or the biggest
riser with its rank_change. -/
inductive RankResult where
  | insufficientData : RankResult
  | ok : String → ℚ → RankResult
deriving DecidableEq, Repr

/-- Election-shift block (dashboard.py lines 110-136): if both fixed period values
are among the periods of the filtered subset, report the top mover by rank_change
together with its rank_change, else the degraded insufficient-data result. -/
def rankShift (df : List Record) : RankResult :=
  if (periodsOf df).contains "pre_election" && (periodsOf df).contains "post_election" then
    RankResult.ok (topMover df) (rankChange df (topMover df))
  else RankResult.insufficientData

/-- By-topic counts in first-appearance group order, before the descending sort
that value_counts applies. -/
def topicCounts (df : List Record) : List (String × Nat) :=
  (topicsOf df).map (fun t => (t, df.countP (fun r => r.topic_name == t)))

/-- Insert a (key, count) pair into a descending-by-count list, before the first
entry whose count is not larger: a stable descending insertion. -/
def insertByCount (x : String × Nat) : List (String × Nat) → List (String × Nat)
  | [] => [x]
  | y :: ys => if y.2 ≤ x.2 then x :: y :: ys else y :: insertByCount x ys

/-- Stable sort of (key, count) pairs by descending count, embedding the
descending sort of value_counts. -/
def sortByCountDesc : List (String × Nat) → List (String × Nat)
  | [] => []
  | x :: xs => insertByCount x (sortByCountDesc xs)

/-- topK(counts, k): value_counts style descending sort followed by head(k)
(dashboard.py lines 144-149 with k = 6, lines 205-210 with k = 10). -/
def topK (counts : List (String × Nat)) (k : Nat) : List (String × Nat) :=
  (sortByCountDesc counts).take k

/-- The top six topics by overall frequency: value_counts().head(6).index. -/
def top6Topics (df : List Record) : List String :=
  (topK (topicCounts df) 6).map (fun x => x.1)

/-- Subset restricted to records of the top six topics (dashboard.py line 152). -/
def restrictTop6 (df : List Record) : List Record :=
  df.filter (fun r => (top6Topics df).contains r.topic_name)

/-- By-(date, topic) counts of the restricted subset (dashboard.py lines 151-156):
groupby(["date","topic_name"]).size() after the top-6 restriction. -/
def timeSeries (df : List Record) : List ((Nat × String) × Nat) :=
  (uniqueFirst ((restrictTop6 df).map (fun r => (r.date, r.topic_name)))).map
    (fun k => (k, (restrictTop6 df).countP (fun r => r.date == k.1 && r.topic_name == k.2)))

/-- By-(source, topic) counts (dashboard.py lines 179-184). -/
def heatmap (df : List Record) : List ((String × String) × Nat) :=
  (uniqueFirst (df.map (fun r => (r.source, r.topic_name)))).map
    (fun k => (k, df.countP (fun r => r.source == k.1 && r.topic_name == k.2)))

/-- Article text lookup (dashboard.py lines 228-238): filter the subset by topic,
then by article id, and take iloc[0] of the text column; an empty selection makes
iloc[0] raise IndexError, embedded as the error value. -/
def articleText (df : List Record) (t : String) (i : Nat) : Except String String :=
  match (df.filter (fun r => r.topic_name == t && r.article_id == i)).map
      (fun r => r.text_clean) with
  | [] => Except.error "IndexError"
  | x :: _ => Except.ok x

/-- Article explorer block (dashboard.py lines 223-238): the topic selectbox
defaults to the first distinct topic of the subset (none when the subset is
empty, in which case no record compares equal to the empty selection), the
article selectbox to the first article id of the topic subset, and the text is
iloc[0] of the matching rows, raising IndexError when there are none. -/
def articleExplorer (df : List Record) : Except String String :=
  let subset :=
    match (topicsOf df).head? with
    | none => ([] : List Record)
    | some t => df.filter (fun r => r.topic_name == t)
  match (subset.map (fun r => r.article_id)).head? with
  | none => Except.error "IndexError"
  | some i =>
    match (subset.filter (fun r => r.article_id == i)).map (fun r => r.text_clean) with
    | [] => Except.error "IndexError"
    | x :: _ => Except.ok x

/-- Following the spec wording, for comparison with the pivot index: the distinct
topics present in either of the two fixed periods. -/
def specPrePostTopics (df : List Record) : List String :=
  uniqueFirst ((df.filter (fun r =>
    r.election_period == "pre_election" || r.election_period == "post_election")).map
    (fun r => r.topic_name))

/-- Replicated records sharing one source, topic and period, with distinct ids. -/
def repRecords (n : Nat) (t p : String) (base : Nat) : List Record :=
  (List.range n).map (fun i => ⟨"src", t, p, 0, base + i, ""⟩)

/-- Example subset with a tie in the pre-election counts (alpha and beta both
have two pre-election records) and a topic (delta) present only in a third
period. -/
def exC1 : List Record :=
  [⟨"src", "alpha", "pre_election", 0, 1, ""⟩,
   ⟨"src", "alpha", "pre_election", 0, 2, ""⟩,
   ⟨"src", "beta", "pre_election", 0, 3, ""⟩,
   ⟨"src", "beta", "pre_election", 0, 4, ""⟩,
   ⟨"src", "alpha", "post_election", 1, 5, ""⟩,
   ⟨"src", "delta", "mid_election", 2, 6, ""⟩]

/-- Descending-by-count sortedness of a (key, count) list. -/
def SortedByCountDesc (l : List (String × Nat)) : Prop :=
  l.Pairwise (fun a b => b.2 ≤ a.2)

/-- Contract of the per-period ranking for a pair of topics of the pivot index:
equal counts share a rank, a strictly larger count gives a strictly better
(numerically smaller) rank, every rank lies in [1, N], the ranks over the index
sum to N(N+1)/2, and a topic whose count is unique in its period gets the
competition rank 1 + number of strictly-greater-count topics. -/
def RankContract (df : List Record) (p t u : String) : Prop :=
  (countTopicPeriod df p t = countTopicPeriod df p u → rankIn df p t = rankIn df p u)
    ∧ (countTopicPeriod df p u < countTopicPeriod df p t →
        rankIn df p t < rankIn df p u)
    ∧ 1 ≤ rankIn df p t
    ∧ rankIn df p t ≤ ((topicsOf df).length : ℚ)
    ∧ ((topicsOf df).map (rankIn df p)).sum
        = ((topicsOf df).length : ℚ) * (((topicsOf df).length : ℚ) + 1) / 2
    ∧ ((∀ v ∈ topicsOf df, v ≠ t → countTopicPeriod df p v ≠ countTopicPeriod df p t) →
        rankIn df p t = 1 + ((topicsOf df).countP
          (fun s => decide (countTopicPeriod df p t < countTopicPeriod df p s)) : ℚ))

/-- Example subset matching the worked example of the spec: ten curriculum and
two funding pre-election records, three curriculum and nine funding
post-election records. -/
def exC2 : List Record :=
  repRecords 10 "curriculum" "pre_election" 0
    ++ repRecords 2 "funding" "pre_election" 100
    ++ repRecords 3 "curriculum" "post_election" 200
    ++ repRecords 9 "funding" "post_election" 300

/-- Example subset with a pre-election record and a record of a third period,
but no post-election record. -/
def exC3 : List Record :=
  [⟨"src", "alpha", "pre_election", 0, 1, ""⟩,
   ⟨"src", "beta", "mid_election", 0, 2, ""⟩]

/-- Example subset where topic delta occurs only in a third period yet enters
the pivot index. -/
def exC5 : List Record :=
  [⟨"src", "alpha", "pre_election", 0, 1, ""⟩,
   ⟨"src", "alpha", "post_election", 0, 2, ""⟩,
   ⟨"src", "delta", "mid_election", 0, 3, ""⟩]

/-- Example corpus for the article locator: one alpha record and one beta record. -/
def exC7 : List Record :=
  [⟨"src", "alpha", "pre_election", 0, 1, "THE TEXT"⟩,
   ⟨"src", "beta", "pre_election", 0, 2, "OTHER"⟩]

/-- Example by-topic count mapping with a tie on count 2. -/
def exC8 : List (String × Nat) :=
  [("b", 2), ("a", 5), ("c", 2)]

/-- Example subset for the time series: two records of one topic on one date. -/
def exC9 : List Record :=
  [⟨"src", "alpha", "pre_election", 3, 1, ""⟩,
   ⟨"src", "alpha", "pre_election", 3, 2, ""⟩]

/-- Example subset where both periods are present but no topic rises: the only
topic has rank 1 both before and after, so the maximal rank_change is 0. -/
def exC10 : List Record :=
  [⟨"src", "alpha", "pre_election", 0, 1, ""⟩,
   ⟨"src", "alpha", "post_election", 0, 2, ""⟩]

/-! Helper lemmas about membership tests. -/

theorem contains_true_iff {α : Type} [BEq α] [LawfulBEq α] (l : List α) (a : α) :
    l.contains a = true ↔ a ∈ l := by
  simp [List.contains, List.elem_iff]

/-! Helper lemmas about counting, shared by the ranking development. -/

theorem countP_tricho (U : List String) (f : String → Nat) (c : Nat) :
    U.countP (fun s => decide (c < f s)) + U.countP (fun s => f s == c)
      + U.countP (fun s => decide (f s < c)) = U.length := by
  induction U with
  | nil => rfl
  | cons a l ih =>
    simp only [List.countP_cons, List.length_cons]
    split_ifs <;> simp_all <;> omega

theorem countP_pair_le (U : List String) (f : String → Nat) {t u : String}
    (h : f u < f t) :
    U.countP (fun s => decide (f t < f s)) + U.countP (fun s => f s == f t)
      ≤ U.countP (fun s => decide (f u < f s)) := by
  induction U with
  | nil => simp
  | cons a l ih =>
    simp only [List.countP_cons]
    split_ifs <;> simp_all <;> omega

theorem countP_eq_self_pos (U : List String) (f : String → Nat) {t : String}
    (ht : t ∈ U) : 0 < U.countP (fun s => f s == f t) :=
  List.countP_pos_iff.mpr ⟨t, ht, by simp⟩

theorem countP_eq_one_unique {α : Type} [DecidableEq α] (U : List α) (p : α → Bool)
    (hnd : U.Nodup) {t : α} (ht : t ∈ U) (hpt : p t = true)
    (ho : ∀ v ∈ U, v ≠ t → p v = false) : U.countP p = 1 := by
  induction U with
  | nil => cases ht
  | cons a l ih =>
    have hnd2 := List.nodup_cons.mp hnd
    simp only [List.countP_cons]
    rcases List.mem_cons.mp ht with rfl | hmem
    · have hz : l.countP p = 0 := List.countP_eq_zero.mpr (fun v hv => by
        have hne : v ≠ t := by
          intro he
          exact hnd2.1 (he ▸ hv)
        simp [ho v (List.mem_cons_of_mem _ hv) hne])
      simp [hpt, hz]
    · have hne : a ≠ t := by
        intro he
        exact hnd2.1 (he ▸ hmem)
      have ha : p a = false := ho a (List.mem_cons_self a l) hne
      have := ih hnd2.2 hmem (fun v hv h2 => ho v (List.mem_cons_of_mem _ hv) h2)
      simp [ha, this]

theorem sum_map_addF {α : Type} (l : List α) (f g : α → Nat) :
    (l.map (fun x => f x + g x)).sum = (l.map f).sum + (l.map g).sum := by
  induction l with
  | nil => simp
  | cons a l ih => simp [ih]; omega

theorem sum_map_ite_count {α : Type} (l : List α) (p : α → Bool) (k : Nat) :
    (l.map (fun x => if p x then k else 0)).sum = k * l.countP p := by
  induction l with
  | nil => simp
  | cons a l ih =>
    simp only [List.map_cons, List.sum_cons, List.countP_cons, ih]
    by_cases h : p a = true
    · simp [h]; ring
    · simp [h]

theorem countP_beq_comm (l : List String) (f : String → Nat) (c : Nat) :
    l.countP (fun s => c == f s) = l.countP (fun s => f s == c) := by
  apply List.countP_congr
  intro x _
  simp only [beq_iff_eq]
  omega

/-! Properties of the doubled average rank. -/

theorem rank2In_eq_of_count_eq (U : List String) (f : String → Nat) {t u : String}
    (h : f t = f u) : rank2In U f t = rank2In U f u := by
  unfold rank2In
  rw [h]

theorem rank2In_lt_of_count_gt (U : List String) (f : String → Nat) {t u : String}
    (hu : u ∈ U) (h : f u < f t) : rank2In U f t < rank2In U f u := by
  have h1 := countP_pair_le U f h
  have h2 := countP_eq_self_pos U f hu
  unfold rank2In
  omega

theorem rank2In_lower (U : List String) (f : String → Nat) {t : String}
    (ht : t ∈ U) : 2 ≤ rank2In U f t := by
  have h2 := countP_eq_self_pos U f ht
  unfold rank2In
  omega

theorem rank2In_upper (U : List String) (f : String → Nat) {t : String}
    (ht : t ∈ U) : rank2In U f t ≤ 2 * U.length := by
  have h2 := countP_eq_self_pos U f ht
  have h3 := countP_tricho U f (f t)
  unfold rank2In
  omega

theorem rank2In_of_unique_count (U : List String) (f : String → Nat) {t : String}
    (hnd : U.Nodup) (ht : t ∈ U) (ho : ∀ v ∈ U, v ≠ t → f v ≠ f t) :
    rank2In U f t = 2 * U.countP (fun s => decide (f t < f s)) + 2 := by
  have h1 : U.countP (fun s => f s == f t) = 1 :=
    countP_eq_one_unique U _ hnd ht (by simp)
      (fun v hv hne => by simp [ho v hv hne])
  unfold rank2In
  omega

theorem rank2In_sum (U : List String) (f : String → Nat) :
    (U.map (rank2In U f)).sum = U.length * U.length + U.length := by
  induction U with
  | nil => simp
  | cons a l ih =>
    have hsplit : ∀ t ∈ l, rank2In (a :: l) f t
        = rank2In l f t + ((if decide (f t < f a) then 2 else 0)
            + (if f a == f t then 1 else 0)) := by
      intro t _
      simp only [rank2In, List.countP_cons]
      split_ifs <;> omega
    have hmap : (l.map (rank2In (a :: l) f)).sum
        = (l.map (rank2In l f)).sum
          + (2 * l.countP (fun t => decide (f t < f a))
            + l.countP (fun t => f a == f t)) := by
      rw [List.map_congr_left hsplit]
      rw [sum_map_addF l (rank2In l f)
        (fun t => (if decide (f t < f a) then 2 else 0) + (if f a == f t then 1 else 0))]
      congr 1
      rw [sum_map_addF l (fun t => if decide (f t < f a) then 2 else 0)
        (fun t => if f a == f t then 1 else 0)]
      rw [sum_map_ite_count l (fun t => decide (f t < f a)) 2,
        sum_map_ite_count l (fun t => f a == f t) 1]
      omega
    have hhead : rank2In (a :: l) f a
        = 2 * l.countP (fun s => decide (f a < f s)) + l.countP (fun s => f s == f a)
          + 2 := by
      have e1 : (a :: l).countP (fun s => decide (f a < f s))
          = l.countP (fun s => decide (f a < f s)) := by
        rw [List.countP_cons]
        simp
      have e2 : (a :: l).countP (fun s => f s == f a)
          = l.countP (fun s => f s == f a) + 1 := by
        rw [List.countP_cons]
        simp
      rw [rank2In, e1, e2]
      omega
    have htr := countP_tricho l f (f a)
    have hbc := countP_beq_comm l f (f a)
    rw [List.map_cons, List.sum_cons, hmap, hhead, ih, hbc]
    simp only [List.length_cons]
    have hsq : (l.length + 1) * (l.length + 1)
        = l.length * l.length + 2 * l.length + 1 := by ring
    omega

/-! Properties of distinct-in-first-appearance-order lists. -/

theorem mem_uniqueFirstAux {α : Type} [DecidableEq α] (l : List α) :
    ∀ (seen : List α) (x : α), x ∈ uniqueFirstAux seen l ↔ x ∈ l ∧ x ∉ seen := by
  induction l with
  | nil => intro seen x; simp [uniqueFirstAux]
  | cons a l ih =>
    intro seen x
    simp only [uniqueFirstAux]
    by_cases h : a ∈ seen
    · rw [if_pos h, ih]
      constructor
      · rintro ⟨hl, hs⟩
        exact ⟨List.mem_cons_of_mem _ hl, hs⟩
      · rintro ⟨hal, hs⟩
        rcases List.mem_cons.mp hal with rfl | hl
        · exact absurd h hs
        · exact ⟨hl, hs⟩
    · rw [if_neg h]
      constructor
      · intro hmem
        rcases List.mem_cons.mp hmem with rfl | hm
        · exact ⟨List.mem_cons_self _ _, h⟩
        · have hr := (ih (a :: seen) x).mp hm
          exact ⟨List.mem_cons_of_mem _ hr.1,
            fun hs => hr.2 (List.mem_cons_of_mem _ hs)⟩
      · rintro ⟨hal, hs⟩
        rcases List.mem_cons.mp hal with rfl | hl
        · exact List.mem_cons_self _ _
        · by_cases hxa : x = a
          · subst hxa
            exact List.mem_cons_self _ _
          · refine List.mem_cons_of_mem _ ((ih (a :: seen) x).mpr ⟨hl, ?_⟩)
            intro hm
            rcases List.mem_cons.mp hm with h1 | h2
            · exact hxa h1
            · exact hs h2

theorem mem_uniqueFirst {α : Type} [DecidableEq α] (l : List α) (x : α) :
    x ∈ uniqueFirst l ↔ x ∈ l := by
  rw [uniqueFirst, mem_uniqueFirstAux]
  simp

theorem nodup_uniqueFirstAux {α : Type} [DecidableEq α] (l : List α) :
    ∀ seen : List α, (uniqueFirstAux seen l).Nodup := by
  induction l with
  | nil => intro seen; simp [uniqueFirstAux]
  | cons a l ih =>
    intro seen
    simp only [uniqueFirstAux]
    by_cases h : a ∈ seen
    · rw [if_pos h]
      exact ih seen
    · rw [if_neg h]
      refine List.nodup_cons.mpr ⟨?_, ih (a :: seen)⟩
      intro hmem
      exact ((mem_uniqueFirstAux l (a :: seen) a).mp hmem).2 (List.mem_cons_self a seen)

theorem nodup_uniqueFirst {α : Type} [DecidableEq α] (l : List α) :
    (uniqueFirst l).Nodup :=
  nodup_uniqueFirstAux l []

theorem mem_topicsOf (df : List Record) (t : String) :
    t ∈ topicsOf df ↔ ∃ r ∈ df, r.topic_name = t := by
  rw [topicsOf, mem_uniqueFirst]
  simp [List.mem_map]

/-! Properties of the argmax used for the biggest riser. -/

theorem le_argmaxZ (f : String → ℤ) :
    ∀ (l : List String), ∀ t ∈ l, f t ≤ f (argmaxZ f l)
  | [] => by intro t ht; cases ht
  | [a] => by
    intro t ht
    rcases List.mem_cons.mp ht with rfl | h
    · simp [argmaxZ]
    · cases h
  | a :: u :: ts => by
    intro t ht
    have ih := le_argmaxZ f (u :: ts)
    simp only [argmaxZ]
    rcases List.mem_cons.mp ht with rfl | hmem
    · by_cases hlt : f t < f (argmaxZ f (u :: ts))
      · simp only [hlt, if_true]
        exact le_of_lt hlt
      · simp only [hlt, if_false]
        exact le_refl _
    · by_cases hlt : f a < f (argmaxZ f (u :: ts))
      · simp only [hlt, if_true]
        exact ih t hmem
      · simp only [hlt, if_false]
        exact le_trans (ih t hmem) (not_lt.mp hlt)

theorem argmaxZ_mem (f : String → ℤ) :
    ∀ (l : List String), l ≠ [] → argmaxZ f l ∈ l
  | [] => by intro h; exact absurd rfl h
  | [a] => by intro _; simp [argmaxZ]
  | a :: u :: ts => by
    intro _
    have ih := argmaxZ_mem f (u :: ts) (by simp)
    simp only [argmaxZ]
    by_cases hlt : f a < f (argmaxZ f (u :: ts))
    · simp only [hlt, if_true]
      exact List.mem_cons_of_mem _ ih
    · simp only [hlt, if_false]
      exact List.mem_cons_self _ _

/-! Bridging the doubled natural ranks to the rational ranks pandas reports. -/

theorem rankIn_eq_of_rank2_eq (df : List Record) (p : String) {t u : String}
    (h : rank2 df p t = rank2 df p u) : rankIn df p t = rankIn df p u := by
  rw [rankIn, rankIn, h]

theorem rankIn_lt_of_rank2_lt (df : List Record) (p : String) {t u : String}
    (h : rank2 df p t < rank2 df p u) : rankIn df p t < rankIn df p u := by
  rw [rankIn, rankIn]
  have hc : (rank2 df p t : ℚ) < (rank2 df p u : ℚ) := by exact_mod_cast h
  linarith

theorem rankIn_lower (df : List Record) (p : String) {t : String}
    (ht : t ∈ topicsOf df) : 1 ≤ rankIn df p t := by
  have h := rank2In_lower (topicsOf df) (countTopicPeriod df p) ht
  rw [rankIn]
  have hc : (2 : ℚ) ≤ (rank2 df p t : ℚ) := by exact_mod_cast h
  linarith

theorem rankIn_upper (df : List Record) (p : String) {t : String}
    (ht : t ∈ topicsOf df) : rankIn df p t ≤ ((topicsOf df).length : ℚ) := by
  have h := rank2In_upper (topicsOf df) (countTopicPeriod df p) ht
  rw [rankIn]
  have hc : (rank2 df p t : ℚ) ≤ 2 * ((topicsOf df).length : ℚ) := by exact_mod_cast h
  linarith

theorem sum_map_div2 (U : List String) (g : String → Nat) :
    (U.map (fun t => (g t : ℚ) / 2)).sum = (((U.map g).sum : ℕ) : ℚ) / 2 := by
  induction U with
  | nil => simp
  | cons a l ih =>
    simp only [List.map_cons, List.sum_cons, ih]
    push_cast
    ring

theorem rankIn_sum (df : List Record) (p : String) :
    ((topicsOf df).map (rankIn df p)).sum
      = ((topicsOf df).length : ℚ) * (((topicsOf df).length : ℚ) + 1) / 2 := by
  have h1 : (topicsOf df).map (rankIn df p)
      = (topicsOf df).map (fun t => (rank2 df p t : ℚ) / 2) :=
    List.map_congr_left (fun t _ => rfl)
  have h2 : (topicsOf df).map (rank2 df p)
      = (topicsOf df).map (rank2In (topicsOf df) (countTopicPeriod df p)) :=
    List.map_congr_left (fun t _ => rfl)
  rw [h1, sum_map_div2, h2, rank2In_sum]
  push_cast
  ring

/-! Lemmas about the stable descending sort used by topK. -/

theorem perm_insertByCount (x : String × Nat) (l : List (String × Nat)) :
    (insertByCount x l).Perm (x :: l) := by
  induction l with
  | nil => exact List.Perm.refl _
  | cons y ys ih =>
    simp only [insertByCount]
    by_cases h : y.2 ≤ x.2
    · rw [if_pos h]
    · rw [if_neg h]
      exact (List.Perm.cons y ih).trans (List.Perm.swap x y ys)

theorem perm_sortByCountDesc (l : List (String × Nat)) :
    (sortByCountDesc l).Perm l := by
  induction l with
  | nil => exact List.Perm.refl _
  | cons x xs ih =>
    simp only [sortByCountDesc]
    exact (perm_insertByCount x (sortByCountDesc xs)).trans (List.Perm.cons x ih)

theorem sorted_insertByCount (x : String × Nat) (l : List (String × Nat))
    (h : SortedByCountDesc l) : SortedByCountDesc (insertByCount x l) := by
  induction l with
  | nil =>
    simp [insertByCount, SortedByCountDesc]
  | cons y ys ih =>
    have hp := (List.pairwise_cons.mp h)
    simp only [insertByCount]
    by_cases hc : y.2 ≤ x.2
    · rw [if_pos hc]
      refine List.pairwise_cons.mpr ⟨?_, h⟩
      intro z hz
      rcases List.mem_cons.mp hz with rfl | hm
      · exact hc
      · exact le_trans (hp.1 z hm) hc
    · rw [if_neg hc]
      refine List.pairwise_cons.mpr ⟨?_, ih hp.2⟩
      intro z hz
      have hz2 := (perm_insertByCount x ys).mem_iff.mp hz
      rcases List.mem_cons.mp hz2 with rfl | hm
      · exact le_of_lt (not_le.mp hc)
      · exact hp.1 z hm

theorem sorted_sortByCountDesc (l : List (String × Nat)) :
    SortedByCountDesc (sortByCountDesc l) := by
  induction l with
  | nil => simp [sortByCountDesc, SortedByCountDesc]
  | cons x xs ih =>
    simp only [sortByCountDesc]
    exact sorted_insertByCount x (sortByCountDesc xs) ih

theorem filter_insertByCount_eq (x : String × Nat) (l : List (String × Nat))
    (h : SortedByCountDesc l) :
    (insertByCount x l).filter (fun y => y.2 == x.2)
      = x :: l.filter (fun y => y.2 == x.2) := by
  induction l with
  | nil => simp [insertByCount]
  | cons y ys ih =>
    have hp := (List.pairwise_cons.mp h)
    simp only [insertByCount]
    by_cases hc : y.2 ≤ x.2
    · rw [if_pos hc]
      simp [List.filter]
    · rw [if_neg hc]
      have hy : (y.2 == x.2) = false := by
        simp only [beq_eq_false_iff_ne, ne_eq]
        omega
      rw [List.filter_cons, hy, if_neg (by simp), ih hp.2, List.filter_cons, hy,
        if_neg (by simp)]

theorem filter_insertByCount_ne (x : String × Nat) (l : List (String × Nat))
    (m : Nat) (hne : x.2 ≠ m) :
    (insertByCount x l).filter (fun y => y.2 == m)
      = l.filter (fun y => y.2 == m) := by
  induction l with
  | nil => simp [insertByCount, hne]
  | cons y ys ih =>
    simp only [insertByCount]
    by_cases hc : y.2 ≤ x.2
    · rw [if_pos hc]
      rw [List.filter_cons, List.filter_cons]
      have hx : (x.2 == m) = false := by
        simp only [beq_eq_false_iff_ne, ne_eq]
        exact hne
      rw [hx, if_neg (by simp)]
    · rw [if_neg hc]
      rw [List.filter_cons, List.filter_cons, ih]

theorem filter_sortByCountDesc (l : List (String × Nat)) (m : Nat) :
    (sortByCountDesc l).filter (fun y => y.2 == m)
      = l.filter (fun y => y.2 == m) := by
  induction l with
  | nil => simp [sortByCountDesc]
  | cons x xs ih =>
    simp only [sortByCountDesc]
    by_cases h : x.2 = m
    · subst h
      rw [filter_insertByCount_eq x (sortByCountDesc xs) (sorted_sortByCountDesc xs),
        ih, List.filter_cons, beq_self_eq_true, if_pos (by simp)]
    · rw [filter_insertByCount_ne x (sortByCountDesc xs) m h, ih, List.filter_cons]
      have hx : (x.2 == m) = false := by
        simp only [beq_eq_false_iff_ne, ne_eq]
        exact h
      rw [hx, if_neg (by simp)]

theorem topK_dominance (counts : List (String × Nat)) (k : Nat) {x y : String × Nat}
    (hx : x ∈ topK counts k) (hy : y ∈ counts) (hyn : y ∉ topK counts k) :
    y.2 ≤ x.2 := by
  have hsor := sorted_sortByCountDesc counts
  have hys : y ∈ sortByCountDesc counts :=
    (perm_sortByCountDesc counts).mem_iff.mpr hy
  rw [← List.take_append_drop k (sortByCountDesc counts)] at hys hsor
  rcases List.mem_append.mp hys with hyt | hyd
  · exact absurd hyt hyn
  · exact (List.pairwise_append.mp hsor).2.2 x hx y hyd

/-! Lemmas about the time series restriction. -/

theorem restrictTop6_count (df : List Record) (d : Nat) {t : String}
    (ht : (top6Topics df).contains t = true) :
    (restrictTop6 df).countP (fun r => r.date == d && r.topic_name == t)
      = df.countP (fun r => r.date == d && r.topic_name == t) := by
  rw [restrictTop6, List.countP_filter]
  apply List.countP_congr
  intro r _
  constructor
  · intro h
    exact (Bool.and_eq_true _ _).mp h |>.1
  · intro h
    rw [Bool.and_eq_true]
    refine ⟨h, ?_⟩
    have h2 : r.topic_name = t := by
      have := ((Bool.and_eq_true _ _).mp h).2
      exact beq_iff_eq.mp this
    rw [h2]
    exact ht

theorem timeSeries_sound (df : List Record) {d : Nat} {t : String} {c : Nat}
    (h : ((d, t), c) ∈ timeSeries df) :
    (top6Topics df).contains t = true
      ∧ c = df.countP (fun r => r.date == d && r.topic_name == t) := by
  rw [timeSeries] at h
  rcases List.mem_map.mp h with ⟨k, hk, hkeq⟩
  have hk1 : k = (d, t) := (Prod.mk.injEq _ _ _ _).mp hkeq |>.1
  have hc : c = (restrictTop6 df).countP
      (fun r => r.date == k.1 && r.topic_name == k.2) :=
    ((Prod.mk.injEq _ _ _ _).mp hkeq |>.2).symm
  subst hk1
  rw [mem_uniqueFirst] at hk
  rcases List.mem_map.mp hk with ⟨r, hr, hreq⟩
  have hrd : r.date = d := (Prod.mk.injEq _ _ _ _).mp hreq |>.1
  have hrt : r.topic_name = t := (Prod.mk.injEq _ _ _ _).mp hreq |>.2
  have hrf := List.mem_filter.mp hr
  have htop : (top6Topics df).contains t = true := by
    rw [← hrt]
    exact hrf.2
  exact ⟨htop, by rw [hc]; exact restrictTop6_count df d htop⟩

theorem timeSeries_complete (df : List Record) {r : Record} (hr : r ∈ df)
    (ht : (top6Topics df).contains r.topic_name = true) :
    ((r.date, r.topic_name),
      df.countP (fun x => x.date == r.date && x.topic_name == r.topic_name))
        ∈ timeSeries df := by
  have hrr : r ∈ restrictTop6 df := List.mem_filter.mpr ⟨hr, ht⟩
  have hkey : (r.date, r.topic_name)
      ∈ uniqueFirst ((restrictTop6 df).map (fun x => (x.date, x.topic_name))) := by
    rw [mem_uniqueFirst]
    exact List.mem_map.mpr ⟨r, hrr, rfl⟩
  rw [timeSeries, ← restrictTop6_count df r.date ht]
  exact List.mem_map.mpr ⟨(r.date, r.topic_name), hkey, rfl⟩

/-! Small bridge lemmas used by the claim theorems. -/

theorem periodsOf_contains_ne_nil {df : List Record} {p : String}
    (h : (periodsOf df).contains p = true) : df ≠ [] := by
  intro he
  subst he
  simp [periodsOf] at h

theorem topicsOf_ne_nil {df : List Record} (h : df ≠ []) : topicsOf df ≠ [] := by
  cases df with
  | nil => exact absurd rfl h
  | cons r rest => simp [topicsOf, uniqueFirst, uniqueFirstAux]

theorem rankChange_eq (df : List Record) (t : String) :
    rankChange df t = rankIn df "pre_election" t - rankIn df "post_election" t := by
  rw [rankChange, rankChange2, rankIn, rankIn]
  push_cast
  ring

theorem rankChange_le_of_le (df : List Record) {t u : String}
    (h : rankChange2 df t ≤ rankChange2 df u) : rankChange df t ≤ rankChange df u := by
  rw [rankChange, rankChange]
  have hc : (rankChange2 df t : ℚ) ≤ (rankChange2 df u : ℚ) := by exact_mod_cast h
  linarith


/-! Claim theorems. -/

/-- C1 (amended): within each period, ranks over the pivot index (the distinct
topics of the filtered subset) follow pandas average ranking: equal counts give
equal ranks, a strictly greater count gives a strictly smaller (better) rank,
every rank lies in [1, N] for N the pivot index size, the ranks sum to
N(N+1)/2, and a topic with a unique count gets rank 1 + number of topics with
strictly greater count. -/
theorem c1_rank_properties (df : List Record) (p t u : String)
    (ht : t ∈ topicsOf df) (hu : u ∈ topicsOf df) : RankContract df p t u := by
  refine ⟨?_, ?_, rankIn_lower df p ht, rankIn_upper df p ht, rankIn_sum df p, ?_⟩
  · intro h
    exact rankIn_eq_of_rank2_eq df p (rank2In_eq_of_count_eq _ _ h)
  · intro h
    exact rankIn_lt_of_rank2_lt df p (rank2In_lt_of_count_gt _ _ hu h)
  · intro h
    have h1 := rank2In_of_unique_count (topicsOf df) (countTopicPeriod df p)
      (nodup_uniqueFirst _) ht h
    have h2 : rank2 df p t = 2 * (topicsOf df).countP
        (fun s => decide (countTopicPeriod df p t < countTopicPeriod df p s)) + 2 := h1
    rw [rankIn, h2]
    push_cast
    ring

/-- C1 counterexample: on exC1 the tied pre-election counts of alpha and beta
give alpha the average rank 3/2, not the competition rank 1 + 0 = 1 claimed,
and the pivot index is not the set of topics present in the two fixed periods
(delta, present only in mid_election, is ranked too). -/
theorem c1_counterexample :
    rankIn exC1 "pre_election" "alpha"
        ≠ 1 + ((topicsOf exC1).countP
            (fun s => decide (countTopicPeriod exC1 "pre_election" "alpha"
              < countTopicPeriod exC1 "pre_election" s)) : ℚ)
      ∧ topicsOf exC1 ≠ specPrePostTopics exC1 := by
  constructor
  · have h1 : rank2 exC1 "pre_election" "alpha" = 3 := by decide
    have h2 : (topicsOf exC1).countP
        (fun s => decide (countTopicPeriod exC1 "pre_election" "alpha"
          < countTopicPeriod exC1 "pre_election" s)) = 0 := by decide
    rw [rankIn, h1, h2]
    norm_num
  · decide

/-- C1 witness: the rank contract instantiated on exC1 for alpha and beta. -/
theorem c1_rank_properties_witness :
    ("alpha" ∈ topicsOf exC1) ∧ ("beta" ∈ topicsOf exC1)
      ∧ RankContract exC1 "pre_election" "alpha" "beta" :=
  ⟨by decide, by decide,
    c1_rank_properties exC1 "pre_election" "alpha" "beta" (by decide) (by decide)⟩

/-- C2: rank_change is rank_pre minus rank_post, positivity of rank_change is
exactly an improvement toward rank 1, the reported biggest riser attains the
maximal rank_change over the pivot index, and on the worked example subset the
biggest riser is funding with rank_change 1. -/
theorem c2_rank_change_riser :
    (∀ (df : List Record) (t : String),
        rankChange df t = rankIn df "pre_election" t - rankIn df "post_election" t
          ∧ (0 < rankChange df t ↔ rankIn df "post_election" t < rankIn df "pre_election" t))
      ∧ (∀ df : List Record,
          ((periodsOf df).contains "pre_election"
            && (periodsOf df).contains "post_election") = true →
          rankShift df = RankResult.ok (topMover df) (rankChange df (topMover df))
            ∧ topMover df ∈ topicsOf df
            ∧ ∀ t ∈ topicsOf df, rankChange df t ≤ rankChange df (topMover df))
      ∧ rankShift exC2 = RankResult.ok "funding" 1 := by
  refine ⟨?_, ?_, ?_⟩
  · intro df t
    refine ⟨rankChange_eq df t, ?_⟩
    rw [rankChange_eq df t]
    exact sub_pos
  · intro df h
    refine ⟨by rw [rankShift, if_pos h], ?_, ?_⟩
    · have hpre : (periodsOf df).contains "pre_election" = true :=
        ((Bool.and_eq_true _ _).mp h).1
      exact argmaxZ_mem (rankChange2 df) (topicsOf df)
        (topicsOf_ne_nil (periodsOf_contains_ne_nil hpre))
    · intro t ht
      exact rankChange_le_of_le df (le_argmaxZ (rankChange2 df) (topicsOf df) t ht)
  · have hg : ((periodsOf exC2).contains "pre_election"
        && (periodsOf exC2).contains "post_election") = true := by decide
    have hm : topMover exC2 = "funding" := by decide
    have h2 : rankChange2 exC2 "funding" = 2 := by decide
    have h3 : rankChange exC2 "funding" = 1 := by
      rw [rankChange, h2]
      norm_num
    rw [rankShift, if_pos hg, hm, h3]

/-- C2 witness: the general biggest-riser conjunct instantiated on the worked
example subset. -/
theorem c2_rank_change_riser_witness :
    (((periodsOf exC2).contains "pre_election"
        && (periodsOf exC2).contains "post_election") = true)
      ∧ (rankShift exC2 = RankResult.ok (topMover exC2) (rankChange exC2 (topMover exC2))
          ∧ topMover exC2 ∈ topicsOf exC2
          ∧ ∀ t ∈ topicsOf exC2, rankChange exC2 t ≤ rankChange exC2 (topMover exC2)) :=
  ⟨by decide, c2_rank_change_riser.2.1 exC2 (by decide)⟩

/-- C3: the Rank-Shift Calculator returns the degraded InsufficientData result
exactly when at least one of the two fixed periods is absent from the periods of
the filtered subset; in particular on the empty subset, and on a subset that has
a pre-election record and a third-period record but no post-election record. -/
theorem c3_insufficient_data_iff :
    (∀ df : List Record,
        rankShift df = RankResult.insufficientData
          ↔ ((periodsOf df).contains "pre_election"
              && (periodsOf df).contains "post_election") = false)
      ∧ (∀ df : List Record,
          ((periodsOf df).contains "pre_election"
            && (periodsOf df).contains "post_election") = true →
          ∃ t rc, rankShift df = RankResult.ok t rc)
      ∧ rankShift ([] : List Record) = RankResult.insufficientData
      ∧ rankShift exC3 = RankResult.insufficientData := by
  refine ⟨?_,
    fun df h => ⟨topMover df, rankChange df (topMover df), by rw [rankShift, if_pos h]⟩,
    rfl, by decide⟩
  intro df
  by_cases h : ((periodsOf df).contains "pre_election"
      && (periodsOf df).contains "post_election") = true
  · rw [rankShift, if_pos h]
    constructor
    · intro hok
      exact RankResult.noConfusion hok
    · intro hfalse
      rw [h] at hfalse
      exact Bool.noConfusion hfalse
  · have hf : ((periodsOf df).contains "pre_election"
        && (periodsOf df).contains "post_election") = false :=
      Bool.eq_false_iff.mpr h
    rw [rankShift, if_neg h]
    exact ⟨fun _ => hf, fun _ => rfl⟩

/-- C3 witness: on the worked example subset both fixed periods are present and
the calculator returns a rank-shift result. -/
theorem c3_insufficient_data_iff_witness :
    (((periodsOf exC2).contains "pre_election"
        && (periodsOf exC2).contains "post_election") = true)
      ∧ ∃ t rc, rankShift exC2 = RankResult.ok t rc :=
  ⟨by decide, c3_insufficient_data_iff.2.1 exC2 (by decide)⟩

/-- C4: the filter keeps exactly the records whose source, topic and period each
belong to the corresponding selection list, conjunctively; its size equals the
brute-force count of records satisfying all three predicates, and an empty
selection list in any dimension gives the empty subset. -/
theorem c4_filter_conjunctive :
    ∀ (df : List Record) (ss ts ps : List String),
      (∀ r : Record, r ∈ filterRecords df ss ts ps
          ↔ r ∈ df ∧ r.source ∈ ss ∧ r.topic_name ∈ ts ∧ r.election_period ∈ ps)
        ∧ (filterRecords df ss ts ps).length
            = df.countP (fun r => ss.contains r.source && ts.contains r.topic_name
                && ps.contains r.election_period)
        ∧ filterRecords df [] ts ps = []
        ∧ filterRecords df ss [] ps = []
        ∧ filterRecords df ss ts [] = [] := by
  intro df ss ts ps
  refine ⟨?_, ?_, ?_, ?_, ?_⟩
  · intro r
    rw [filterRecords, List.mem_filter]
    simp only [Bool.and_eq_true, contains_true_iff]
    tauto
  · rw [filterRecords, ← List.countP_eq_length_filter]
  · rw [filterRecords]
    apply List.filter_eq_nil_iff.mpr
    intro r _
    simp
  · rw [filterRecords]
    apply List.filter_eq_nil_iff.mpr
    intro r _
    simp
  · rw [filterRecords]
    apply List.filter_eq_nil_iff.mpr
    intro r _
    simp

/-- C5 (amended): the pivot table is indexed by exactly the distinct topics of
the filtered subset (any period, not only the two fixed ones); a (period, topic)
cell with no records holds the zero-filled count 0; and the per-period ranks are
computed over exactly this index, each lying in [1, N] for N its size. -/
theorem c5_pivot_universe :
    ∀ (df : List Record) (p t : String),
      (t ∈ topicsOf df ↔ ∃ r ∈ df, r.topic_name = t)
        ∧ (countTopicPeriod df p t = 0
            ↔ ∀ r ∈ df, r.election_period = p → r.topic_name ≠ t)
        ∧ (t ∈ topicsOf df →
            1 ≤ rankIn df p t ∧ rankIn df p t ≤ ((topicsOf df).length : ℚ)) := by
  intro df p t
  refine ⟨mem_topicsOf df t, ?_,
    fun ht => ⟨rankIn_lower df p ht, rankIn_upper df p ht⟩⟩
  rw [countTopicPeriod, List.countP_eq_zero]
  constructor
  · intro h r hr hp ht
    exact h r hr (by simp [hp, ht])
  · intro h r hr hpred
    rw [Bool.and_eq_true, beq_iff_eq, beq_iff_eq] at hpred
    exact h r hr hpred.1 hpred.2

/-- C5 counterexample: on exC5 the pivot index contains delta, a topic present
only in mid_election, so it is not the list of distinct topics present in either
of the two fixed periods. -/
theorem c5_counterexample :
    topicsOf exC5 ≠ specPrePostTopics exC5
      ∧ "delta" ∈ topicsOf exC5
      ∧ "delta" ∉ specPrePostTopics exC5 := by
  refine ⟨by decide, by decide, by decide⟩

/-- C5 witness: the amended pivot-universe facts instantiated on exC5 at topic
alpha under pre_election. -/
theorem c5_pivot_universe_witness :
    ("alpha" ∈ topicsOf exC5)
      ∧ (∃ r ∈ exC5, r.topic_name = "alpha")
      ∧ (1 ≤ rankIn exC5 "pre_election" "alpha"
          ∧ rankIn exC5 "pre_election" "alpha" ≤ ((topicsOf exC5).length : ℚ)) :=
  ⟨by decide, (c5_pivot_universe exC5 "pre_election" "alpha").1.mp (by decide),
    (c5_pivot_universe exC5 "pre_election" "alpha").2.2 (by decide)⟩

/-- C6: on the empty filtered subset, the aggregations return empty results and
the rank shift returns its degraded signal, but the article explorer does not
degrade: its iloc[0] lookup on the empty selection yields the IndexError
failure, contradicting the claim that no downstream operation ever fails. -/
theorem c6_empty_subset_behavior :
    topicCounts ([] : List Record) = []
      ∧ timeSeries ([] : List Record) = []
      ∧ heatmap ([] : List Record) = []
      ∧ topK (topicCounts ([] : List Record)) 10 = []
      ∧ rankShift ([] : List Record) = RankResult.insufficientData
      ∧ (∀ (t : String) (i : Nat),
          articleText ([] : List Record) t i = Except.error "IndexError")
      ∧ articleExplorer ([] : List Record) = Except.error "IndexError" :=
  ⟨rfl, rfl, rfl, rfl, rfl, fun _ _ => rfl, rfl⟩

/-- C7: the article locator returns the text of the record matching both topic
and id when it is present; for an id that exists in the corpus but under a
different topic, or an id that does not exist at all, the iloc[0] lookup yields
the IndexError failure instead of a recoverable NotFound signal. -/
theorem c7_article_locator_behavior :
    articleText exC7 "alpha" 1 = Except.ok "THE TEXT"
      ∧ articleText exC7 "beta" 1 = Except.error "IndexError"
      ∧ articleText exC7 "alpha" 99 = Except.error "IndexError" :=
  ⟨rfl, rfl, rfl⟩

/-- C8: topK returns at most k items, every returned pair is a pair of the
input, the result is sorted by descending count, every returned count is at
least every non-returned count, and ties are broken by the stable secondary
order of the input: within each count value the sort preserves the input
order exactly. -/
theorem c8_topK_contract :
    ∀ (counts : List (String × Nat)) (k : Nat),
      (topK counts k).length ≤ k
        ∧ (∀ x ∈ topK counts k, x ∈ counts)
        ∧ SortedByCountDesc (topK counts k)
        ∧ (∀ x ∈ topK counts k, ∀ y ∈ counts, y ∉ topK counts k → y.2 ≤ x.2)
        ∧ (∀ m : Nat, (sortByCountDesc counts).filter (fun y => y.2 == m)
            = counts.filter (fun y => y.2 == m)) := by
  intro counts k
  refine ⟨?_, ?_, ?_, ?_, fun m => filter_sortByCountDesc counts m⟩
  · rw [topK, List.length_take]
    exact min_le_left _ _
  · intro x hx
    exact (perm_sortByCountDesc counts).mem_iff.mp
      ((List.take_sublist k (sortByCountDesc counts)).subset hx)
  · exact List.Pairwise.sublist (List.take_sublist k (sortByCountDesc counts))
      (sorted_sortByCountDesc counts)
  · intro x hx y hy hyn
    exact topK_dominance counts k hx hy hyn

/-- C8 witness: the dominance conjunct instantiated on exC8 with k = 2, where
the returned pair (a, 5) dominates the non-returned pair (c, 2). -/
theorem c8_topK_contract_witness :
    (("a", 5) ∈ topK exC8 2) ∧ (("c", 2) ∈ exC8) ∧ (("c", 2) ∉ topK exC8 2)
      ∧ (("c", 2).2 ≤ ("a", 5).2) :=
  ⟨by decide, by decide, by decide,
    (c8_topK_contract exC8 2).2.2.2.1 ("a", 5) (by decide) ("c", 2) (by decide)
      (by decide)⟩

/-- C9: every entry of the by-(date, topic) time series has its topic among the
top six topics by overall frequency and its count equal to the number of subset
records with that date and topic; every subset record of a top-six topic
contributes its (date, topic) key; and a topic outside the top six has no entry
at all (dropped entirely, no other bucket). -/
theorem c9_time_series :
    ∀ (df : List Record) (d : Nat) (t : String) (c : Nat),
      (((d, t), c) ∈ timeSeries df →
        (top6Topics df).contains t = true
          ∧ c = df.countP (fun r => r.date == d && r.topic_name == t))
        ∧ (∀ r ∈ df, (top6Topics df).contains r.topic_name = true →
            ((r.date, r.topic_name),
              df.countP (fun x => x.date == r.date && x.topic_name == r.topic_name))
                ∈ timeSeries df)
        ∧ ((top6Topics df).contains t = false →
            ∀ c2 : Nat, ((d, t), c2) ∉ timeSeries df) := by
  intro df d t c
  refine ⟨timeSeries_sound df, fun r hr ht => timeSeries_complete df hr ht, ?_⟩
  intro hf c2 hmem
  have htop := (timeSeries_sound df hmem).1
  rw [hf] at htop
  exact Bool.noConfusion htop

/-- C9 witness: the soundness conjunct instantiated on exC9, whose series entry
((3, alpha), 2) is in the top six and counts the two matching records. -/
theorem c9_time_series_witness :
    (((3, "alpha"), 2) ∈ timeSeries exC9)
      ∧ ((top6Topics exC9).contains "alpha" = true
          ∧ 2 = exC9.countP (fun r => r.date == 3 && r.topic_name == "alpha")) :=
  ⟨by decide, (c9_time_series exC9 3 "alpha" 2).1 (by decide)⟩

/-- C10: whenever both fixed periods are present in the filtered subset the
calculator reports some topic as the biggest riser with its rank_change; on the
subset exC10 every rank_change is at most zero and yet the (non-rising) topic
alpha is still reported, with rank_change 0. -/
theorem c10_always_reports_riser :
    (∀ df : List Record,
        ((periodsOf df).contains "pre_election"
          && (periodsOf df).contains "post_election") = true →
        ∃ t rc, rankShift df = RankResult.ok t rc)
      ∧ rankShift exC10 = RankResult.ok "alpha" 0
      ∧ (∀ t ∈ topicsOf exC10, rankChange2 exC10 t ≤ 0) := by
  refine ⟨?_, ?_, by decide⟩
  · intro df h
    exact ⟨topMover df, rankChange df (topMover df), by rw [rankShift, if_pos h]⟩
  · have hg : ((periodsOf exC10).contains "pre_election"
        && (periodsOf exC10).contains "post_election") = true := by decide
    have hm : topMover exC10 = "alpha" := by decide
    have h2 : rankChange2 exC10 "alpha" = 0 := by decide
    have h3 : rankChange exC10 "alpha" = 0 := by
      rw [rankChange, h2]
      norm_num
    rw [rankShift, if_pos hg, hm, h3]

/-- C10 witness: the existence conjunct instantiated on exC10. -/
theorem c10_always_reports_riser_witness :
    (((periodsOf exC10).contains "pre_election"
        && (periodsOf exC10).contains "post_election") = true)
      ∧ ∃ t rc, rankShift exC10 = RankResult.ok t rc :=
  ⟨by decide, c10_always_reports_riser.1 exC10 (by decide)⟩
